import Mathlib

/- Verification development for the adaptive calibration autopilot
`OUROBOROS_LAB_AUTOPILOT.py`.  The Python program is shallowly embedded:
Python floats are modelled as exact rationals, captured process output as a
list of characters, and the external experiment process as an oracle from
invocation index to an optional captured outcome, where `none` models a
launch failure (the process could not be started; `subprocess.run` raises
and the exception propagates).  The four auxiliary metric fields parsed by
the script (Q_geo, Lprime1, Omega_total, Regulator_R) are never read by any
decision, classification or selection logic; they are omitted from the
embedded record.  Host-environment report fields (python version, platform,
cwd) are informational strings and likewise omitted. -/

namespace Ouroboros

/- Batteries marks the arithmetic of `Rat` irreducible for rewriting
hygiene; concrete runs of the embedded program are evaluated by `decide`,
which needs these to unfold. -/
attribute [local semireducible] Rat.mul Rat.inv Rat.add Rat.sub

/-! ### Semaforo thresholds (source lines 63-65) -/

def PASS_STRICT : ℚ := 1 / 10 ^ 12

def PASS_GUERR : ℚ := 1 / 10 ^ 9

def WARN_TOL : ℚ := 1 / 10 ^ 7

/-- `classify` (lines 68-78): map an optional relative error to
(status, meaning). -/
def classify : Option ℚ → String × String
  | none => ("FAIL", "No se pudo parsear rel_err: posible cambio de formato o crash.")
  | some r =>
    if r < PASS_STRICT then ("PASS_STRICT", "Cierre de expediente: convergencia fuerte.")
    else if r < PASS_GUERR then
      ("PASS_GUERRILLA", "Puente operativo: pipeline sano, falta francotirador.")
    else if r < WARN_TOL then
      ("WARN", "Subcalibrado: suele requerir más dps/terms o suma más estable.")
    else ("FAIL", "Error alto: o falta calibración extrema o hay bug/modelo incorrecto.")

/-- `cost_proxy` (lines 81-87). -/
def cost_proxy (time_s : ℚ) (dps terms : ℕ) : ℚ :=
  time_s * (1 + (dps : ℚ) / 80) * (1 + (terms : ℚ) / 20000)

/-! ### Result extraction: the regex `<label>\s*=\s*([0-9.Ee+-]+)` applied
with `re.search` (lines 53, 173-181). -/

/-- Whitespace class `\s` of the regex engine. -/
def isSpaceChar (c : Char) : Bool :=
  c = ' ' || c = '\t' || c = '\n' || c = '\r' || c = '\x0b' || c = '\x0c'

/-- Character class `[0-9.Ee+-]` of the capture group. -/
def isNumChar (c : Char) : Bool :=
  c.isDigit || c = '.' || c = 'E' || c = 'e' || c = '+' || c = '-'

/-- Consume an exact literal at the head of the text. -/
def dropLiteral : List Char → List Char → Option (List Char)
  | [], s => some s
  | _ :: _, [] => none
  | l :: ls, c :: cs => if c = l then dropLiteral ls cs else none

/-- Try to match `<label>\s*=\s*([0-9.Ee+-]+)` anchored at the start of `s`;
on success return the captured group.  The pattern is deterministic: the
space class, `=` and the number class are pairwise disjoint, so greedy
maximal munch is exact. -/
def matchLabelAt (label : List Char) (s : List Char) : Option (List Char) :=
  match dropLiteral label s with
  | none => none
  | some s1 =>
    match s1.dropWhile isSpaceChar with
    | '=' :: s3 =>
      let grp := (s3.dropWhile isSpaceChar).takeWhile isNumChar
      if grp.isEmpty then none else some grp
    | _ => none

/-- `re.search`: try the anchored match at every position from the left and
return the first success (leftmost match). -/
def reSearch (label : List Char) : List Char → Option (List Char)
  | [] => none
  | c :: rest =>
    match matchLabelAt label (c :: rest) with
    | some g => some g
    | none => reSearch label rest

def relErrLabel : List Char := ("rel_err").data

def absErrLabel : List Char := ("abs_err").data

def digitsToNat (ds : List Char) : ℕ :=
  ds.foldl (fun n c => 10 * n + (c.toNat - 48)) 0

/-- Python `float(str)` on a string drawn from the class `[0-9.Ee+-]`:
optional sign, integer and/or fractional digits, optional exponent; any
malformed remainder makes the conversion raise, which `_parse_float`
catches and turns into an absent value. -/
def pyFloat (s : List Char) : Option ℚ :=
  let sgn : ℚ × List Char :=
    match s with
    | '+' :: t => (1, t)
    | '-' :: t => (-1, t)
    | _ => (1, s)
  let ip := sgn.2.takeWhile Char.isDigit
  let s2 := sgn.2.dropWhile Char.isDigit
  let fpPair : List Char × List Char :=
    match s2 with
    | '.' :: t => (t.takeWhile Char.isDigit, t.dropWhile Char.isDigit)
    | _ => ([], s2)
  if ip.isEmpty && fpPair.1.isEmpty then none
  else
    let mant : ℚ := sgn.1 * ((digitsToNat ip : ℚ) + (digitsToNat fpPair.1 : ℚ) / 10 ^ fpPair.1.length)
    match fpPair.2 with
    | [] => some mant
    | e :: t =>
      if e = 'e' || e = 'E' then
        let esgn : ℤ × List Char :=
          match t with
          | '+' :: u => (1, u)
          | '-' :: u => (-1, u)
          | _ => (1, t)
        let ed := esgn.2.takeWhile Char.isDigit
        if ed.isEmpty || !(esgn.2.dropWhile Char.isDigit).isEmpty then none
        else some (mant * 10 ^ (esgn.1 * (digitsToNat ed : ℤ)))
      else none

/-- `OuroborosLab._parse_float` (lines 173-181): first regex match,
converted; conversion failure yields an absent value. -/
def parse_float (label : List Char) (text : List Char) : Option ℚ :=
  match reSearch label text with
  | none => none
  | some g => pyFloat g

/-! ### Data model (lines 100-132) -/

structure RunConfig where
  dps : ℕ
  terms : ℕ
  extra_args : List String
  deriving DecidableEq

structure RunResult where
  config : RunConfig
  time_s : ℚ
  rel_err : Option ℚ
  abs_err : Option ℚ
  status : String
  meaning : String
  cost : ℚ
  stdout_trunc : List Char
  returncode : ℤ
  deriving DecidableEq

/-- One captured execution of the external process: combined
stdout+stderr text, exit code, wall-clock duration. -/
structure ExtRun where
  out : List Char
  returncode : ℤ
  time_s : ℚ
  deriving DecidableEq

/-- Constructor arguments of `OuroborosLab` (lines 136-160) that feed the
decision logic. -/
structure LabArgs where
  max_stdout_chars : ℕ
  stagnation_window : ℕ
  stagnation_improve_min : ℚ
  cola_ratio_threshold : ℚ
  precision_bump : ℕ
  terms_growth : ℕ
  deriving DecidableEq

/-- The documented constructor defaults: 4000, 3, 0.10, 1.8, 40, 2. -/
def defaultLab : LabArgs := ⟨4000, 3, 1 / 10, 9 / 5, 40, 2⟩

/-- `_run_once` (lines 183-218): run the process via the oracle, parse the
fields, classify, compute cost, build the `RunResult`. -/
def run_once (lab : LabArgs) (env : ℕ → Option ExtRun) (k : ℕ) (cfg : RunConfig) :
    Option RunResult :=
  match env k with
  | none => none
  | some e =>
    let rel := parse_float relErrLabel e.out
    let sm := classify rel
    some ⟨cfg, e.time_s, rel, parse_float absErrLabel e.out, sm.1, sm.2,
          cost_proxy e.time_s cfg.dps cfg.terms, e.out.take lab.max_stdout_chars,
          e.returncode⟩

/-- Python `min(cands, key=...)`: first element attaining the minimal key. -/
def pyMin {α : Type} (key : α → ℚ) : List α → Option α
  | [] => none
  | a :: rest => some (rest.foldl (fun cur x => if key x < key cur then x else cur) a)

/-- `_best_by` (lines 220-224). -/
def best_by (p : RunResult → Bool) (runs : List RunResult) : Option RunResult :=
  pyMin (fun r => r.cost) (runs.filter p)

/-- `_improvement_ratio` (lines 226-229). -/
def improvement_ratio (oldE newE : Option ℚ) : Option ℚ :=
  match oldE, newE with
  | some o, some n => if n ≤ 0 then none else some (o / n)
  | _, _ => none

/-- The ratio loop of `_stagnating` (lines 239-244): walk consecutive pairs,
abort (returning the `False` of the caller) on a non-positive current error,
otherwise collect `prev / curr`. -/
def ratios_of : List ℚ → Option (List ℚ)
  | a :: b :: rest =>
    if b ≤ 0 then none
    else
      match ratios_of (b :: rest) with
      | none => none
      | some rs => some (a / b :: rs)
  | _ => some []

/-- Lines 242-246 combined: `False` on an aborted ratio walk, else
`all(r < 1 + min_improve for r in ratios)`. -/
def ratios_all (m : ℚ) (l : List ℚ) : Bool :=
  match ratios_of l with
  | none => false
  | some rs => rs.all fun r => decide (r < 1 + m)

/-- `_stagnating` (lines 231-246). -/
def stagnating (lab : LabArgs) (runs : List RunResult) : Bool :=
  let parsed := runs.filterMap fun r => r.rel_err
  if parsed.length < lab.stagnation_window + 1 then false
  else ratios_all lab.stagnation_improve_min
    (parsed.drop (parsed.length - (lab.stagnation_window + 1)))

/-- The stop checks of `run` (lines 273-276 and 293-296). -/
def stop_hit (stop_on status : String) : Bool :=
  (stop_on == "PASS_STRICT" && status == "PASS_STRICT") ||
  (stop_on == "PASS_GUERRILLA" && (status == "PASS_STRICT" || status == "PASS_GUERRILLA"))

/-- The cola-vs-precision decision (lines 298-308): given the improvement
ratio of the two probes, produce the next `(dps, terms)`.  Both branches
adopt the grown series length `t2`; the precision bump happens only in the
else branch and only below the ceiling. -/
def decide_next (lab : LabArgs) (max_dps dps t2 : ℕ) (ratio : Option ℚ) : ℕ × ℕ :=
  match ratio with
  | some q =>
    if lab.cola_ratio_threshold ≤ q then (dps, t2)
    else ((if dps < max_dps then min max_dps (dps + lab.precision_bump) else dps), t2)
  | none => ((if dps < max_dps then min max_dps (dps + lab.precision_bump) else dps), t2)

/-- The main loop of `run` (lines 269-318), fuel = remaining iterations of
`for step in range(max_steps)`.  State: current `(dps, terms)`, the
accumulated `self._runs`, and the invocation counter handed to the oracle.
Returns `none` when a launch failure propagates. -/
def loop_go (lab : LabArgs) (env : ℕ → Option ExtRun) (max_dps max_terms : ℕ)
    (stop_on : String) (extra : List String) :
    ℕ → ℕ → ℕ → List RunResult → ℕ → Option (List RunResult)
  | 0, _dps, _terms, acc, _k => some acc
  | fuel + 1, dps, terms, acc, k =>
    match run_once lab env k ⟨dps, terms, extra⟩ with
    | none => none
    | some r1 =>
      if stop_hit stop_on r1.status then some (acc ++ [r1])
      else if r1.rel_err = none ∨ r1.returncode ≠ 0 then
        loop_go lab env max_dps max_terms stop_on extra fuel
          (min max_dps (dps + lab.precision_bump)) terms (acc ++ [r1]) (k + 1)
      else
        let t2 := min max_terms (terms * lab.terms_growth)
        if t2 = terms then
          loop_go lab env max_dps max_terms stop_on extra fuel
            (min max_dps (dps + lab.precision_bump)) terms (acc ++ [r1]) (k + 1)
        else
          match run_once lab env (k + 1) ⟨dps, t2, extra⟩ with
          | none => none
          | some r2 =>
            if stop_hit stop_on r2.status then some (acc ++ [r1] ++ [r2])
            else
              let next := decide_next lab max_dps dps t2
                (improvement_ratio r1.rel_err r2.rel_err)
              if stagnating lab (acc ++ [r1] ++ [r2]) then
                if next.1 < max_dps then
                  loop_go lab env max_dps max_terms stop_on extra fuel
                    (min max_dps (next.1 + lab.precision_bump)) next.2
                    (acc ++ [r1] ++ [r2]) (k + 2)
                else if next.2 < max_terms then
                  loop_go lab env max_dps max_terms stop_on extra fuel
                    next.1 (min max_terms (next.2 * lab.terms_growth))
                    (acc ++ [r1] ++ [r2]) (k + 2)
                else some (acc ++ [r1] ++ [r2])
              else
                loop_go lab env max_dps max_terms stop_on extra fuel
                  next.1 next.2 (acc ++ [r1] ++ [r2]) (k + 2)

def isStrict (r : RunResult) : Bool := r.status == "PASS_STRICT"

def isGuerr (r : RunResult) : Bool :=
  r.status == "PASS_STRICT" || r.status == "PASS_GUERRILLA"

/-- The report snapshot (lines 124-132, 323-339); host-environment strings
and the command echo are informational and omitted (see header comment). -/
structure LabReport where
  policy : List (String × ℚ)
  runs : List RunResult
  best : Option RunResult
  best_guerrilla : Option RunResult
  deriving DecidableEq

/-- `OuroborosLab.run` (lines 248-344): drive the loop, then build (and, in
the script, persist) the report.  A propagated launch failure yields `none`:
in that case the Python function raises before the report is written. -/
def run (lab : LabArgs) (env : ℕ → Option ExtRun)
    (start_dps start_terms max_dps max_terms : ℕ) (stop_on : String)
    (max_steps : ℕ) (extra : List String) : Option LabReport :=
  match loop_go lab env max_dps max_terms stop_on extra max_steps start_dps start_terms [] 0 with
  | none => none
  | some runs =>
    some ⟨[("PASS_STRICT", PASS_STRICT), ("PASS_GUERRILLA", PASS_GUERR), ("WARN", WARN_TOL)],
          runs, best_by isStrict runs, best_by isGuerr runs⟩

/-! ### Concrete oracles used by the scenario claims -/

/-- Default forwarded extra arguments: `extra_args or ["--tol", tol_label]`
with the default tolerance label. -/
def defaultExtra : List String := ["--tol", "1e-18"]

/-- Mock process printing `rel_err = 1e-13` on every call, exit 0. -/
def env13 : ℕ → Option ExtRun := fun _ => some ⟨("rel_err = 1e-13\n").data, 0, 1⟩

/-- Mock process printing `rel_err = 1e-5` on every call, exit 0. -/
def env5 : ℕ → Option ExtRun := fun _ => some ⟨("rel_err = 1e-5\n").data, 0, 1⟩

/-- Mock process printing a strict pass but exiting non-zero. -/
def envCrash : ℕ → Option ExtRun := fun _ => some ⟨("rel_err = 1e-13\n").data, 1, 1⟩

/-- Mock process with unparseable output, exit 0. -/
def envNoise : ℕ → Option ExtRun := fun _ => some ⟨("garbage").data, 0, 1⟩

/-- Oracle whose first two launches succeed and whose third launch fails. -/
def envLaunchFail : ℕ → Option ExtRun := fun k =>
  if k < 2 then some ⟨("rel_err = 1e-5\n").data, 0, 1⟩ else none

/-- Ordering of the four verdict tiers, strictest first (claim-side
definition used to state monotonicity). -/
def tier_rank (s : String) : ℕ :=
  if s = "PASS_STRICT" then 0
  else if s = "PASS_GUERRILLA" then 1
  else if s = "WARN" then 2
  else 3

/-- Test fixture: a recorded trial carrying a given relative error. -/
def mkTrial (e : ℚ) : RunResult :=
  ⟨⟨80, 5000, []⟩, 1, some e, none, (classify (some e)).1, (classify (some e)).2,
    cost_proxy 1 80 5000, [], 0⟩

/-! ### Selection lemmas: Python `min(.., key=..)` keeps the first minimum -/

theorem pyMinFold_spec {α : Type} (key : α → ℚ) :
    ∀ (rest : List α) (acc r : α),
      rest.foldl (fun cur x => if key x < key cur then x else cur) acc = r →
        (key r ≤ key acc ∧ ∀ x ∈ rest, key r ≤ key x) ∧
        (r = acc ∨ ∃ l₁ l₂, rest = l₁ ++ r :: l₂ ∧ key r < key acc ∧ ∀ x ∈ l₁, key r < key x) := by
  intro rest
  induction rest with
  | nil =>
    intro acc r h
    simp only [List.foldl_nil] at h
    subst h
    simp
  | cons x rest ih =>
    intro acc r h
    simp only [List.foldl_cons] at h
    by_cases hx : key x < key acc
    · rw [if_pos hx] at h
      obtain ⟨⟨h1, h2⟩, h3⟩ := ih x r h
      refine ⟨⟨le_of_lt (lt_of_le_of_lt h1 hx), ?_⟩, ?_⟩
      · intro y hy
        rcases List.mem_cons.mp hy with hy | hy
        · exact hy ▸ h1
        · exact h2 y hy
      · rcases h3 with rfl | ⟨l₁, l₂, hsplit, hlt, hall⟩
        · exact Or.inr ⟨[], rest, rfl, hx, by simp⟩
        · refine Or.inr ⟨x :: l₁, l₂, ?_, lt_trans hlt hx, ?_⟩
          · rw [hsplit]
            rfl
          · intro y hy
            rcases List.mem_cons.mp hy with hy | hy
            · exact hy ▸ hlt
            · exact hall y hy
    · rw [if_neg hx] at h
      obtain ⟨⟨h1, h2⟩, h3⟩ := ih acc r h
      have hax : key acc ≤ key x := le_of_not_lt hx
      refine ⟨⟨h1, ?_⟩, ?_⟩
      · intro y hy
        rcases List.mem_cons.mp hy with hy | hy
        · exact hy ▸ le_trans h1 hax
        · exact h2 y hy
      · rcases h3 with rfl | ⟨l₁, l₂, hsplit, hlt, hall⟩
        · exact Or.inl rfl
        · refine Or.inr ⟨x :: l₁, l₂, ?_, hlt, ?_⟩
          · rw [hsplit]
            rfl
          · intro y hy
            rcases List.mem_cons.mp hy with hy | hy
            · exact hy ▸ lt_of_lt_of_le hlt hax
            · exact hall y hy

theorem pyMin_spec {α : Type} (key : α → ℚ) (l : List α) (b : α)
    (hb : pyMin key l = some b) :
    b ∈ l ∧ (∀ x ∈ l, key b ≤ key x) ∧
      ∃ l₁ l₂, l = l₁ ++ b :: l₂ ∧ ∀ x ∈ l₁, key b < key x := by
  match l with
  | [] => simp [pyMin] at hb
  | a :: rest =>
    simp only [pyMin, Option.some.injEq] at hb
    obtain ⟨⟨h1, h2⟩, h3⟩ := pyMinFold_spec key rest a b hb
    rcases h3 with rfl | ⟨l₁, l₂, hsplit, hlt, hall⟩
    · refine ⟨List.mem_cons_self _ _, ?_, [], rest, rfl, by simp⟩
      intro y hy
      rcases List.mem_cons.mp hy with hy | hy
      · exact hy ▸ le_refl _
      · exact h2 y hy
    · have hmem : b ∈ a :: rest := by
        rw [hsplit]
        exact List.mem_cons_of_mem a (List.mem_append_right l₁ (List.mem_cons_self b l₂))
      refine ⟨hmem, ?_, a :: l₁, l₂, ?_, ?_⟩
      · intro y hy
        rcases List.mem_cons.mp hy with hy | hy
        · exact hy ▸ h1
        · exact h2 y hy
      · rw [hsplit]
        rfl
      · intro y hy
        rcases List.mem_cons.mp hy with hy | hy
        · exact hy ▸ hlt
        · exact hall y hy

theorem pyMin_eq_none {α : Type} (key : α → ℚ) (l : List α) :
    pyMin key l = none ↔ l = [] := by
  cases l <;> simp [pyMin]

theorem best_by_some (p : RunResult → Bool) (runs : List RunResult) (b : RunResult)
    (hb : best_by p runs = some b) :
    b ∈ runs ∧ p b = true ∧ (∀ r ∈ runs, p r = true → b.cost ≤ r.cost) ∧
      ∃ l₁ l₂, runs.filter p = l₁ ++ b :: l₂ ∧ ∀ r ∈ l₁, b.cost < r.cost := by
  unfold best_by at hb
  obtain ⟨hmem, hmin, l₁, l₂, hsplit, hall⟩ := pyMin_spec (fun r => r.cost) (runs.filter p) b hb
  refine ⟨(List.mem_filter.mp hmem).1, (List.mem_filter.mp hmem).2, ?_, l₁, l₂, hsplit, hall⟩
  intro r hr hp
  exact hmin r (List.mem_filter.mpr ⟨hr, hp⟩)

theorem best_by_none (p : RunResult → Bool) (runs : List RunResult) :
    best_by p runs = none ↔ ∀ r ∈ runs, ¬p r = true := by
  unfold best_by
  rw [pyMin_eq_none, List.filter_eq_nil_iff]

/-- C5: each best selection of the report, when present, is a qualifying
trial of minimal cost; on cost ties the chronologically earliest qualifying
trial (first minimum of the order-preserving filtered log) is chosen; a
selection is absent exactly when no trial qualifies. -/
theorem claim_C5 :
    (∀ (runs : List RunResult) (b : RunResult),
        best_by isStrict runs = some b →
          b ∈ runs ∧ isStrict b = true ∧ (∀ r ∈ runs, isStrict r = true → b.cost ≤ r.cost) ∧
          ∃ l₁ l₂, runs.filter isStrict = l₁ ++ b :: l₂ ∧ ∀ r ∈ l₁, b.cost < r.cost) ∧
    (∀ runs : List RunResult, best_by isStrict runs = none ↔ ∀ r ∈ runs, ¬isStrict r = true) ∧
    (∀ (runs : List RunResult) (b : RunResult),
        best_by isGuerr runs = some b →
          b ∈ runs ∧ isGuerr b = true ∧ (∀ r ∈ runs, isGuerr r = true → b.cost ≤ r.cost) ∧
          ∃ l₁ l₂, runs.filter isGuerr = l₁ ++ b :: l₂ ∧ ∀ r ∈ l₁, b.cost < r.cost) ∧
    (∀ runs : List RunResult, best_by isGuerr runs = none ↔ ∀ r ∈ runs, ¬isGuerr r = true) :=
  ⟨best_by_some isStrict, best_by_none isStrict, best_by_some isGuerr, best_by_none isGuerr⟩

/-- Two strict passes tying on cost, chronological order `tieA` then `tieB`. -/
def tieA : RunResult :=
  ⟨⟨80, 5000, []⟩, 1, some (1 / 10 ^ 13), none, "PASS_STRICT", "a", 5, [], 0⟩

def tieB : RunResult :=
  ⟨⟨90, 5000, []⟩, 1, some (1 / 10 ^ 13), none, "PASS_STRICT", "b", 5, [], 0⟩

theorem claim_C5_witness :
    tieA ∈ [tieA, tieB] ∧ isStrict tieA = true ∧ tieA.cost ≤ tieB.cost :=
  ⟨(claim_C5.1 [tieA, tieB] tieA (by decide)).1,
    (claim_C5.1 [tieA, tieB] tieA (by decide)).2.1,
    (claim_C5.1 [tieA, tieB] tieA (by decide)).2.2.1 tieB (by simp) (by decide)⟩

/-! ### Classifier -/

theorem classify_fst (x : ℚ) :
    (classify (some x)).1 =
      if x < PASS_STRICT then "PASS_STRICT"
      else if x < PASS_GUERR then "PASS_GUERRILLA"
      else if x < WARN_TOL then "WARN"
      else "FAIL" := by
  simp only [classify]
  split_ifs <;> rfl

theorem rank_classify (x : ℚ) :
    tier_rank ((classify (some x)).1) =
      if x < PASS_STRICT then 0 else if x < PASS_GUERR then 1 else if x < WARN_TOL then 2 else 3 := by
  rw [classify_fst]
  split_ifs <;> decide

/-- C1: the classifier always lands in one of the four tiers, with half-open
boundaries exactly at 1e-12, 1e-9, 1e-7; an absent relative error is FAIL
with a meaning string distinct from every numeric verdict's meaning; the
tier is monotone in the relative error, and the absent case is
worst-ranked. -/
theorem claim_C1 :
    (∀ r : Option ℚ,
        (classify r).1 = "PASS_STRICT" ∨ (classify r).1 = "PASS_GUERRILLA" ∨
          (classify r).1 = "WARN" ∨ (classify r).1 = "FAIL") ∧
    (∀ x : ℚ, (classify (some x)).1 = "PASS_STRICT" ↔ x < 1 / 10 ^ 12) ∧
    (∀ x : ℚ, (classify (some x)).1 = "PASS_GUERRILLA" ↔ 1 / 10 ^ 12 ≤ x ∧ x < 1 / 10 ^ 9) ∧
    (∀ x : ℚ, (classify (some x)).1 = "WARN" ↔ 1 / 10 ^ 9 ≤ x ∧ x < 1 / 10 ^ 7) ∧
    (∀ x : ℚ, (classify (some x)).1 = "FAIL" ↔ 1 / 10 ^ 7 ≤ x) ∧
    ((classify none).1 = "FAIL" ∧ ∀ x : ℚ, (classify none).2 ≠ (classify (some x)).2) ∧
    (∀ x y : ℚ, x ≤ y →
        tier_rank ((classify (some x)).1) ≤ tier_rank ((classify (some y)).1)) ∧
    (∀ r : Option ℚ, tier_rank ((classify r).1) ≤ tier_rank ((classify none).1)) := by
  have hPS : PASS_STRICT = 1 / 10 ^ 12 := rfl
  have hPG : PASS_GUERR = 1 / 10 ^ 9 := rfl
  have hW : WARN_TOL = 1 / 10 ^ 7 := rfl
  have hSG : PASS_STRICT < PASS_GUERR := by rw [hPS, hPG]; norm_num
  have hGW : PASS_GUERR < WARN_TOL := by rw [hPG, hW]; norm_num
  refine ⟨?_, ?_, ?_, ?_, ?_, ⟨rfl, ?_⟩, ?_, ?_⟩
  · intro r
    cases r with
    | none => simp [classify]
    | some x =>
      rw [classify_fst]
      split_ifs <;> simp
  · intro x
    rw [classify_fst]
    by_cases h1 : x < PASS_STRICT
    · rw [if_pos h1]
      exact iff_of_true rfl (hPS ▸ h1)
    · rw [if_neg h1]
      have hx : ¬x < 1 / 10 ^ 12 := hPS ▸ h1
      split_ifs <;> exact iff_of_false (by decide) hx
  · intro x
    rw [classify_fst]
    by_cases h1 : x < PASS_STRICT
    · rw [if_pos h1]
      refine iff_of_false (by decide) ?_
      rintro ⟨hle, -⟩
      rw [hPS] at h1
      linarith
    · rw [if_neg h1]
      by_cases h2 : x < PASS_GUERR
      · rw [if_pos h2]
        exact iff_of_true rfl ⟨hPS ▸ le_of_not_lt h1, hPG ▸ h2⟩
      · rw [if_neg h2]
        have hx : ¬(1 / 10 ^ 12 ≤ x ∧ x < 1 / 10 ^ 9) := by
          rintro ⟨-, hlt⟩
          exact h2 (hPG ▸ hlt)
        split_ifs <;> exact iff_of_false (by decide) hx
  · intro x
    rw [classify_fst]
    by_cases h1 : x < PASS_STRICT
    · rw [if_pos h1]
      refine iff_of_false (by decide) ?_
      rintro ⟨hle, -⟩
      rw [← hPG] at hle
      linarith
    · rw [if_neg h1]
      by_cases h2 : x < PASS_GUERR
      · rw [if_pos h2]
        refine iff_of_false (by decide) ?_
        rintro ⟨hle, -⟩
        exact absurd h2 (not_lt.mpr (hPG ▸ hle))
      · rw [if_neg h2]
        by_cases h3 : x < WARN_TOL
        · rw [if_pos h3]
          exact iff_of_true rfl ⟨hPG ▸ le_of_not_lt h2, hW ▸ h3⟩
        · rw [if_neg h3]
          refine iff_of_false (by decide) ?_
          rintro ⟨-, hlt⟩
          exact h3 (hW ▸ hlt)
  · intro x
    rw [classify_fst]
    by_cases h3 : x < WARN_TOL
    · have hx : ¬1 / 10 ^ 7 ≤ x := not_le.mpr (hW ▸ h3)
      split_ifs with h1 h2
      · exact iff_of_false (by decide) hx
      · exact iff_of_false (by decide) hx
      · exact iff_of_false (by decide) hx
    · have h1 : ¬x < PASS_STRICT := fun h => h3 (lt_trans h (lt_trans hSG hGW))
      have h2 : ¬x < PASS_GUERR := fun h => h3 (lt_trans h hGW)
      rw [if_neg h1, if_neg h2, if_neg h3]
      exact iff_of_true rfl (hW ▸ le_of_not_lt h3)
  · intro x
    simp only [classify]
    split_ifs <;> decide
  · intro x y hxy
    rw [rank_classify, rank_classify]
    split_ifs <;> linarith
  · intro r
    cases r with
    | none => exact le_refl _
    | some x =>
      have h3 : tier_rank ((classify none).1) = 3 := by decide
      rw [h3, rank_classify]
      split_ifs <;> norm_num

theorem claim_C1_witness :
    ((classify (some 0)).1 = "PASS_STRICT" ↔ (0 : ℚ) < 1 / 10 ^ 12) ∧
      tier_rank ((classify (some 0)).1) ≤ tier_rank ((classify (some 1)).1) :=
  ⟨claim_C1.2.1 0, claim_C1.2.2.2.2.2.2.1 0 1 (by norm_num)⟩

/-! ### The cola-vs-precision decision -/

/-- C2: at the decision point of an iteration (first trial parsed and exit
zero, series growth possible, second probe did not stop the loop), an
improvement ratio at or above the 1.8 threshold adopts the doubled series
length with precision unchanged; a ratio below the threshold bumps
precision by the fixed step capped at the ceiling and adopts the doubled
series length anyway.  The subsequent stagnation check (lines 310-318) may
adjust the configuration further and is outside this claim's cited range. -/
theorem claim_C2 (max_dps dps t2 : ℕ) (r1e r2e : ℚ) (h2 : 0 < r2e) (hd : dps ≤ max_dps) :
    ((9 : ℚ) / 5 ≤ r1e / r2e →
        decide_next defaultLab max_dps dps t2 (improvement_ratio (some r1e) (some r2e)) =
          (dps, t2)) ∧
    (r1e / r2e < 9 / 5 →
        decide_next defaultLab max_dps dps t2 (improvement_ratio (some r1e) (some r2e)) =
          (min max_dps (dps + 40), t2)) := by
  have hn : ¬r2e ≤ 0 := not_le.mpr h2
  constructor
  · intro hq
    simp [improvement_ratio, hn, decide_next, defaultLab, hq]
  · intro hq
    have hq' : ¬(defaultLab.cola_ratio_threshold ≤ r1e / r2e) := by
      have : defaultLab.cola_ratio_threshold = 9 / 5 := rfl
      rw [this]
      exact not_le.mpr hq
    simp only [improvement_ratio, if_neg hn, decide_next, if_neg hq']
    by_cases hlt : dps < max_dps
    · simp [hlt, defaultLab]
    · have hdm : dps = max_dps := le_antisymm hd (le_of_not_lt hlt)
      subst hdm
      simp only [if_neg hlt, Prod.mk.injEq]
      exact ⟨by omega, trivial⟩

theorem claim_C2_witness :
    decide_next defaultLab 220 80 10000 (improvement_ratio (some 2) (some 1)) = (80, 10000) :=
  (claim_C2 220 80 10000 2 1 (by norm_num) (by norm_num)).1 (by norm_num)

/-! ### Stagnation detector -/

theorem ratios_all_iff (m : ℚ) :
    ∀ l : List ℚ, ratios_all m l = true ↔ List.Chain' (fun a b => 0 < b ∧ a / b < 1 + m) l
  | [] => by simp [ratios_all, ratios_of]
  | [a] => by simp [ratios_all, ratios_of]
  | a :: b :: t => by
    have ih := ratios_all_iff m (b :: t)
    rw [List.chain'_cons]
    by_cases hb : b ≤ 0
    · simp only [ratios_all, ratios_of, if_pos hb]
      constructor
      · intro h
        cases h
      · rintro ⟨⟨h0, -⟩, -⟩
        exact absurd h0 (not_lt.mpr hb)
    · have hb' : 0 < b := not_le.mp hb
      cases hro : ratios_of (b :: t) with
      | none =>
        have hfalse : ratios_all m (b :: t) = false := by
          simp [ratios_all, hro]
        simp only [ratios_all, ratios_of, if_neg hb, hro]
        constructor
        · intro h
          cases h
        · rintro ⟨-, hchain⟩
          have := ih.mpr hchain
          rw [hfalse] at this
          cases this
      | some rs =>
        have ih' : (rs.all fun r => decide (r < 1 + m)) = true ↔
            List.Chain' (fun a b => 0 < b ∧ a / b < 1 + m) (b :: t) := by
          simpa [ratios_all, hro] using ih
        simp only [ratios_all, ratios_of, if_neg hb, hro, List.all_cons, Bool.and_eq_true,
          decide_eq_true_eq]
        constructor
        · rintro ⟨hr, hrest⟩
          exact ⟨⟨hb', hr⟩, ih'.mp hrest⟩
        · rintro ⟨⟨-, hr⟩, hchain⟩
          exact ⟨hr, ih'.mpr hchain⟩

/-- 4 parsed relative errors, each one 5% better than its predecessor. -/
def seqA : List RunResult := [1, 20 / 21, 400 / 441, 8000 / 9261].map mkTrial

/-- A 50% improvement followed by three 5% improvements (5 parsed errors,
the sequence described verbatim by the spec's stagnation test). -/
def seqB : List RunResult :=
  [1, 2 / 3, 40 / 63, 800 / 1323, 16000 / 27783].map mkTrial

/-- C3 counterexample: on the spec's 50%-then-three-5% sequence the
detector returns `true`, not `false`: the window keeps only the last four
parsed errors, whose three consecutive ratios are all the 5% ones. -/
theorem claim_C3_counterexample : stagnating defaultLab seqB = true := by decide

/-- C3 (amended): the detector returns `true` exactly when at least
`window+1` trials have a parsed relative error and every consecutive pair
among the last `window+1` of them has a positive current error and an
improvement ratio strictly below `1 + minImprovement`; consequently it
returns `true` both on 4 errors improving by exactly 5% each and on the
50%-then-three-5% sequence (the 50% step falls outside the window). -/
theorem claim_C3 :
    (∀ (lab : LabArgs) (runs : List RunResult),
        stagnating lab runs = true ↔
          lab.stagnation_window + 1 ≤ (runs.filterMap fun r => r.rel_err).length ∧
            List.Chain' (fun a b => 0 < b ∧ a / b < 1 + lab.stagnation_improve_min)
              ((runs.filterMap fun r => r.rel_err).drop
                ((runs.filterMap fun r => r.rel_err).length - (lab.stagnation_window + 1)))) ∧
    stagnating defaultLab seqA = true ∧ stagnating defaultLab seqB = true := by
  refine ⟨?_, by decide, by decide⟩
  intro lab runs
  unfold stagnating
  by_cases hlen :
      (runs.filterMap fun r => r.rel_err).length < lab.stagnation_window + 1
  · rw [if_pos hlen]
    constructor
    · intro h
      cases h
    · rintro ⟨hle, -⟩
      exact absurd hlen (not_lt.mpr hle)
  · rw [if_neg hlen, ratios_all_iff]
    exact ⟨fun h => ⟨le_of_not_lt hlen, h⟩, fun h => h.2⟩

theorem claim_C3_witness :
    defaultLab.stagnation_window + 1 ≤ (seqA.filterMap fun r => r.rel_err).length ∧
      List.Chain' (fun a b => 0 < b ∧ a / b < 1 + defaultLab.stagnation_improve_min)
        ((seqA.filterMap fun r => r.rel_err).drop
          ((seqA.filterMap fun r => r.rel_err).length - (defaultLab.stagnation_window + 1))) :=
  (claim_C3.1 defaultLab seqA).mp (by decide)

/-! ### Result extractor: leftmost match -/

theorem reSearch_leftmost (label : List Char) :
    ∀ (text g : List Char),
      reSearch label text = some g ↔
        ∃ i, i < text.length ∧ matchLabelAt label (text.drop i) = some g ∧
          ∀ j < i, matchLabelAt label (text.drop j) = none
  | [], g => by simp [reSearch]
  | c :: rest, g => by
    have ih := reSearch_leftmost label rest g
    simp only [reSearch]
    cases hm : matchLabelAt label (c :: rest) with
    | some gm =>
      constructor
      · intro h
        refine ⟨0, by simp, ?_, ?_⟩
        · rw [List.drop_zero, hm]
          exact h
        · intro j hj
          exact absurd hj (Nat.not_lt_zero j)
      · rintro ⟨i, hi, hmatch, hmin⟩
        cases i with
        | zero =>
          rw [List.drop_zero, hm] at hmatch
          exact hmatch
        | succ i =>
          have h0 := hmin 0 (Nat.succ_pos i)
          rw [List.drop_zero, hm] at h0
          cases h0
    | none =>
      rw [ih]
      constructor
      · rintro ⟨i, hi, hmatch, hmin⟩
        refine ⟨i + 1, by simpa using Nat.succ_lt_succ hi, by simpa using hmatch, ?_⟩
        intro j hj
        cases j with
        | zero =>
          rw [List.drop_zero]
          exact hm
        | succ j =>
          simpa using hmin j (Nat.lt_of_succ_lt_succ hj)
      · rintro ⟨i, hi, hmatch, hmin⟩
        cases i with
        | zero =>
          rw [List.drop_zero, hm] at hmatch
          cases hmatch
        | succ i =>
          refine ⟨i, by simpa using Nat.lt_of_succ_lt_succ hi, by simpa using hmatch, ?_⟩
          intro j hj
          simpa using hmin (j + 1) (Nat.succ_lt_succ hj)

/-- A captured text in which the `rel_err` label matches twice, with
different values. -/
def dupText : List Char := ("rel_err = 3\nrel_err = 7\n").data

/-- C4 counterexample: on a text carrying `rel_err = 3` and then
`rel_err = 7`, the extractor returns the first value 3, not the last
value 7 as the claim states. -/
theorem claim_C4_counterexample :
    parse_float relErrLabel dupText = some 3 ∧ parse_float relErrLabel dupText ≠ some 7 := by
  decide

/-- C4 (amended): `re.search` tries the anchored pattern at each position
from the left, so the extractor returns the numeric value of the first
(leftmost) matching occurrence, regardless of any later occurrences; on the
two-occurrence text it yields 3. -/
theorem claim_C4 :
    (∀ (label text g : List Char),
        reSearch label text = some g ↔
          ∃ i, i < text.length ∧ matchLabelAt label (text.drop i) = some g ∧
            ∀ j < i, matchLabelAt label (text.drop j) = none) ∧
    parse_float relErrLabel dupText = some 3 :=
  ⟨fun label => reSearch_leftmost label, by decide⟩

theorem claim_C4_witness :
    reSearch relErrLabel dupText = some (("3").data) :=
  (claim_C4.1 relErrLabel dupText (("3").data)).mpr
    ⟨0, by decide, by decide, fun j hj => absurd hj (Nat.not_lt_zero j)⟩

/-! ### Loop invariants -/

theorem bool_eq_false {b : Bool} (h : ¬b = true) : b = false := by
  cases b
  · rfl
  · exact absurd rfl h

theorem mem_of_mem_dropLast {α : Type} {l : List α} {a : α} (h : a ∈ l.dropLast) : a ∈ l := by
  rw [List.dropLast_eq_take] at h
  exact List.take_subset _ _ h

theorem dropLast_append_singleton {α : Type} (l : List α) (a : α) :
    (l ++ [a]).dropLast = l := by
  simp

theorem all_stop_extend {stop_on : String} {acc : List RunResult} {r1 : RunResult}
    (hacc : ∀ r ∈ acc, stop_hit stop_on r.status = false)
    (h1 : ¬stop_hit stop_on r1.status = true) :
    ∀ r ∈ acc ++ [r1], stop_hit stop_on r.status = false := by
  intro r hr
  rcases List.mem_append.mp hr with hr | hr
  · exact hacc r hr
  · rw [List.mem_singleton.mp hr]
    exact bool_eq_false h1

theorem run_once_eq_none (lab : LabArgs) (env : ℕ → Option ExtRun) (k : ℕ) (cfg : RunConfig) :
    run_once lab env k cfg = none ↔ env k = none := by
  unfold run_once
  cases env k <;> simp

/-- Every successful loop run extends the incoming log purely by appending,
adds at most two trials per remaining iteration, and never records a trial
satisfying the stop condition except possibly as the very last one. -/
theorem loop_go_spec (lab : LabArgs) (env : ℕ → Option ExtRun) (max_dps max_terms : ℕ)
    (stop_on : String) (extra : List String) :
    ∀ (fuel dps terms : ℕ) (acc : List RunResult) (k : ℕ) (l : List RunResult),
      loop_go lab env max_dps max_terms stop_on extra fuel dps terms acc k = some l →
        (∃ t, l = acc ++ t) ∧ l.length ≤ acc.length + 2 * fuel ∧
          ((∀ r ∈ acc, stop_hit stop_on r.status = false) →
            ∀ r ∈ l.dropLast, stop_hit stop_on r.status = false) := by
  intro fuel
  induction fuel with
  | zero =>
    intro dps terms acc k l h
    simp only [loop_go, Option.some.injEq] at h
    subst h
    refine ⟨⟨[], by simp⟩, by simp, ?_⟩
    intro hacc r hr
    exact hacc r (mem_of_mem_dropLast hr)
  | succ fuel ih =>
    intro dps terms acc k l h
    simp only [loop_go] at h
    split at h
    · cases h
    · rename_i r1 heq1
      split at h
      · rename_i hs1
        rw [Option.some.injEq] at h
        subst h
        refine ⟨⟨[r1], rfl⟩, ?_, ?_⟩
        · simp only [List.length_append, List.length_singleton]
          omega
        · intro hacc r hr
          rw [dropLast_append_singleton] at hr
          exact hacc r hr
      · rename_i hs1
        split at h
        · obtain ⟨⟨t, rfl⟩, hlen, hstop⟩ := ih _ _ _ _ _ h
          refine ⟨⟨[r1] ++ t, by rw [List.append_assoc]⟩, ?_, ?_⟩
          · simp only [List.length_append, List.length_singleton] at hlen ⊢
            omega
          · intro hacc
            exact hstop (all_stop_extend hacc hs1)
        · split at h
          · obtain ⟨⟨t, rfl⟩, hlen, hstop⟩ := ih _ _ _ _ _ h
            refine ⟨⟨[r1] ++ t, by rw [List.append_assoc]⟩, ?_, ?_⟩
            · simp only [List.length_append, List.length_singleton] at hlen ⊢
              omega
            · intro hacc
              exact hstop (all_stop_extend hacc hs1)
          · split at h
            · cases h
            · rename_i r2 heq2
              split at h
              · rename_i hs2
                rw [Option.some.injEq] at h
                subst h
                refine ⟨⟨[r1] ++ [r2], by rw [List.append_assoc]⟩, ?_, ?_⟩
                · simp only [List.length_append, List.length_singleton]
                  omega
                · intro hacc r hr
                  rw [dropLast_append_singleton] at hr
                  exact all_stop_extend hacc hs1 r hr
              · rename_i hs2
                split at h
                · split at h
                  · obtain ⟨⟨t, rfl⟩, hlen, hstop⟩ := ih _ _ _ _ _ h
                    refine ⟨⟨[r1] ++ ([r2] ++ t), by simp [List.append_assoc]⟩, ?_, ?_⟩
                    · simp only [List.length_append, List.length_singleton] at hlen ⊢
                      omega
                    · intro hacc
                      exact hstop (all_stop_extend (all_stop_extend hacc hs1) hs2)
                  · split at h
                    · obtain ⟨⟨t, rfl⟩, hlen, hstop⟩ := ih _ _ _ _ _ h
                      refine ⟨⟨[r1] ++ ([r2] ++ t), by simp [List.append_assoc]⟩, ?_, ?_⟩
                      · simp only [List.length_append, List.length_singleton] at hlen ⊢
                        omega
                      · intro hacc
                        exact hstop (all_stop_extend (all_stop_extend hacc hs1) hs2)
                    · rw [Option.some.injEq] at h
                      subst h
                      refine ⟨⟨[r1] ++ [r2], by rw [List.append_assoc]⟩, ?_, ?_⟩
                      · simp only [List.length_append, List.length_singleton]
                        omega
                      · intro hacc r hr
                        rw [dropLast_append_singleton] at hr
                        exact all_stop_extend hacc hs1 r hr
                · obtain ⟨⟨t, rfl⟩, hlen, hstop⟩ := ih _ _ _ _ _ h
                  refine ⟨⟨[r1] ++ ([r2] ++ t), by simp [List.append_assoc]⟩, ?_, ?_⟩
                  · simp only [List.length_append, List.length_singleton] at hlen ⊢
                    omega
                  · intro hacc
                    exact hstop (all_stop_extend (all_stop_extend hacc hs1) hs2)

/-- With an oracle that never fails to launch, the loop always returns a
log. -/
theorem loop_go_ne_none (lab : LabArgs) (env : ℕ → Option ExtRun) (max_dps max_terms : ℕ)
    (stop_on : String) (extra : List String) (henv : ∀ j, env j ≠ none) :
    ∀ (fuel dps terms : ℕ) (acc : List RunResult) (k : ℕ),
      loop_go lab env max_dps max_terms stop_on extra fuel dps terms acc k ≠ none := by
  intro fuel
  induction fuel with
  | zero =>
    intro dps terms acc k h
    cases h
  | succ fuel ih =>
    intro dps terms acc k h
    simp only [loop_go] at h
    split at h
    · rename_i heq1
      exact absurd ((run_once_eq_none lab env k _).mp heq1) (henv k)
    · rename_i r1 heq1
      split at h
      · cases h
      · split at h
        · exact ih _ _ _ _ h
        · split at h
          · exact ih _ _ _ _ h
          · split at h
            · rename_i heq2
              exact absurd ((run_once_eq_none lab env (k + 1) _).mp heq2) (henv (k + 1))
            · rename_i r2 heq2
              split at h
              · cases h
              · split at h
                · split at h
                  · exact ih _ _ _ _ h
                  · split at h
                    · exact ih _ _ _ _ h
                    · cases h
                · exact ih _ _ _ _ h

/-! ### Scenario fixtures: the exact trials recorded by the concrete mock
oracles, used to instantiate the universal claims -/

def trial5a : RunResult :=
  ⟨⟨80, 5000, ["--tol", "1e-18"]⟩, 1, some (1 / 100000), none, "FAIL",
    "Error alto: o falta calibración extrema o hay bug/modelo incorrecto.", 5 / 2,
    ("rel_err = 1e-5\n").data, 0⟩

def trial5b : RunResult :=
  ⟨⟨80, 10000, ["--tol", "1e-18"]⟩, 1, some (1 / 100000), none, "FAIL",
    "Error alto: o falta calibración extrema o hay bug/modelo incorrecto.", 3,
    ("rel_err = 1e-5\n").data, 0⟩

def trialNoise : RunResult :=
  ⟨⟨80, 5000, []⟩, 1, none, none, "FAIL",
    "No se pudo parsear rel_err: posible cambio de formato o crash.", 5 / 2,
    ("garbage").data, 0⟩

def report13 : Option LabReport :=
  run defaultLab env13 80 5000 220 100000 "PASS_STRICT" 30 defaultExtra

def report5 : Option LabReport :=
  run defaultLab env5 80 5000 220 100000 "PASS_STRICT" 5 defaultExtra

def reportCrash : Option LabReport :=
  run defaultLab envCrash 80 5000 220 100000 "PASS_STRICT" 3 defaultExtra

/-- C6: a trial satisfying the configured stop condition is never followed
by another trial (every non-final recorded trial fails the stop check), and
concretely a mock printing `rel_err = 1e-13` yields a single recorded trial
whose best-strict selection is that trial. -/
theorem claim_C6 :
    (∀ (lab : LabArgs) (env : ℕ → Option ExtRun) (max_dps max_terms : ℕ) (stop_on : String)
        (extra : List String) (fuel dps terms : ℕ) (acc : List RunResult) (k : ℕ)
        (l : List RunResult),
        loop_go lab env max_dps max_terms stop_on extra fuel dps terms acc k = some l →
          (∀ r ∈ acc, stop_hit stop_on r.status = false) →
          ∀ r ∈ l.dropLast, stop_hit stop_on r.status = false) ∧
    (report13.map fun rpt => rpt.runs.length) = some 1 ∧
    (report13.map fun rpt => rpt.best) = (report13.map fun rpt => rpt.runs.head?) := by
  refine ⟨?_, by decide, by decide⟩
  intro lab env max_dps max_terms stop_on extra fuel dps terms acc k l hl hacc
  exact (loop_go_spec lab env max_dps max_terms stop_on extra fuel dps terms acc k l hl).2.2 hacc

theorem claim_C6_witness : stop_hit "PASS_STRICT" trial5a.status = false :=
  claim_C6.1 defaultLab env5 220 100000 "PASS_STRICT" defaultExtra 1 80 5000 [] 0
    [trial5a, trial5b] (by decide) (by simp) trial5a (by decide)

/-- C7 counterexample: a mock whose trials exit non-zero while still
printing `rel_err = 1e-13` makes the very first iteration stop the loop
(one recorded trial with exit code 1), instead of bumping precision and
continuing as the claim requires of every non-zero-exit iteration: the stop
check at lines 273-276 precedes the crash branch and only looks at the
tier. -/
theorem claim_C7_counterexample :
    (reportCrash.map fun rpt => (rpt.runs.length, rpt.runs.map fun t => t.returncode)) =
      some (1, [1]) := by
  decide

/-- C7 (amended): in every iteration whose first trial has an absent
relative error or a non-zero exit code and whose tier does not satisfy the
configured stop condition, the policy bumps precision by the fixed step
capped at the ceiling, appends exactly that one trial (no second probe),
keeps the series length unchanged, and continues the loop with no error. -/
theorem claim_C7 (lab : LabArgs) (env : ℕ → Option ExtRun) (max_dps max_terms : ℕ)
    (stop_on : String) (extra : List String) (fuel dps terms k : ℕ) (acc : List RunResult)
    (r1 : RunResult) (h1 : run_once lab env k ⟨dps, terms, extra⟩ = some r1)
    (h2 : r1.rel_err = none ∨ r1.returncode ≠ 0)
    (h3 : stop_hit stop_on r1.status = false) :
    loop_go lab env max_dps max_terms stop_on extra (fuel + 1) dps terms acc k =
      loop_go lab env max_dps max_terms stop_on extra fuel
        (min max_dps (dps + lab.precision_bump)) terms (acc ++ [r1]) (k + 1) := by
  simp only [loop_go, h1]
  rw [if_neg (by simp [h3]), if_pos h2]

theorem claim_C7_witness :
    loop_go defaultLab envNoise 220 100000 "PASS_STRICT" [] 1 80 5000 [] 0 =
      loop_go defaultLab envNoise 220 100000 "PASS_STRICT" [] 0
        (min 220 (80 + defaultLab.precision_bump)) 5000 ([] ++ [trialNoise]) (0 + 1) :=
  claim_C7 defaultLab envNoise 220 100000 "PASS_STRICT" [] 0 80 5000 0 [] trialNoise
    (by decide) (Or.inl rfl) (by decide)

/-- C8 counterexample: the never-improving `rel_err = 1e-5` mock run with
`max_steps = 5` records 8 trials (each iteration records up to two), not
"exactly 5 or fewer". -/
theorem claim_C8_counterexample :
    (report5.map fun rpt => rpt.runs.length) = some 8 ∧ ¬(8 : ℕ) ≤ 5 := by
  decide

/-- C8 (amended): the never-improving `rel_err = 1e-5` mock run with
`max_steps = 5` terminates (here through the cannot-grow break, before the
budget) with 8 recorded trials — at most two per budgeted step — and the
report has no best-strict and no best-guerrilla selection. -/
theorem claim_C8 :
    (report5.map fun rpt => (rpt.runs.length, rpt.best, rpt.best_guerrilla)) =
      some (8, none, none) ∧ (8 : ℕ) ≤ 2 * 5 := by
  decide

/-- C9 counterexample: an oracle whose first two launches succeed and whose
third fails makes `run` abort with no report, although the launch failure
did not happen on every attempt. -/
theorem claim_C9_counterexample :
    run defaultLab envLaunchFail 80 5000 220 100000 "PASS_STRICT" 30 defaultExtra = none ∧
      envLaunchFail 0 ≠ none ∧ envLaunchFail 1 ≠ none := by
  decide

/-- C9 (amended): short of a launch failure on some attempt, every
invocation of `run` terminates (the loop is fuel-bounded and total) and
returns the persisted report snapshot. -/
theorem claim_C9 (lab : LabArgs) (env : ℕ → Option ExtRun)
    (start_dps start_terms max_dps max_terms : ℕ) (stop_on : String) (max_steps : ℕ)
    (extra : List String) (henv : ∀ j, env j ≠ none) :
    (run lab env start_dps start_terms max_dps max_terms stop_on max_steps extra).isSome =
      true := by
  unfold run
  cases hl : loop_go lab env max_dps max_terms stop_on extra max_steps start_dps start_terms
      [] 0 with
  | none =>
    exact absurd hl
      (loop_go_ne_none lab env max_dps max_terms stop_on extra henv max_steps start_dps
        start_terms [] 0)
  | some runs => rfl

theorem claim_C9_witness :
    (run defaultLab env5 80 5000 220 100000 "PASS_STRICT" 5 defaultExtra).isSome = true :=
  claim_C9 defaultLab env5 80 5000 220 100000 "PASS_STRICT" 5 defaultExtra
    (fun j => by simp [env5])

/-- C10: the run log only ever grows by appending (the incoming log is a
prefix of the outgoing one) with at most two trials added per iteration, so
a report produced with budget `max_steps` holds at most `2 * max_steps`
trials. -/
theorem claim_C10 :
    (∀ (lab : LabArgs) (env : ℕ → Option ExtRun) (max_dps max_terms : ℕ) (stop_on : String)
        (extra : List String) (fuel dps terms : ℕ) (acc : List RunResult) (k : ℕ)
        (l : List RunResult),
        loop_go lab env max_dps max_terms stop_on extra fuel dps terms acc k = some l →
          l.take acc.length = acc ∧ l.length ≤ acc.length + 2 * fuel) ∧
    (∀ (lab : LabArgs) (env : ℕ → Option ExtRun)
        (start_dps start_terms max_dps max_terms : ℕ) (stop_on : String) (max_steps : ℕ)
        (extra : List String) (rpt : LabReport),
        run lab env start_dps start_terms max_dps max_terms stop_on max_steps extra =
            some rpt →
          rpt.runs.length ≤ 2 * max_steps) := by
  constructor
  · intro lab env max_dps max_terms stop_on extra fuel dps terms acc k l hl
    obtain ⟨⟨t, rfl⟩, hlen, -⟩ :=
      loop_go_spec lab env max_dps max_terms stop_on extra fuel dps terms acc k l hl
    exact ⟨List.take_left acc t, hlen⟩
  · intro lab env start_dps start_terms max_dps max_terms stop_on max_steps extra rpt hrun
    unfold run at hrun
    split at hrun
    · cases hrun
    · rename_i runs heq
      rw [Option.some.injEq] at hrun
      subst hrun
      have hlen :=
        (loop_go_spec lab env max_dps max_terms stop_on extra max_steps start_dps start_terms
          [] 0 runs heq).2.1
      simpa using hlen

theorem claim_C10_witness :
    ([trial5a, trial5b] : List RunResult).take ([] : List RunResult).length = [] ∧
      ([trial5a, trial5b] : List RunResult).length ≤ ([] : List RunResult).length + 2 * 1 :=
  claim_C10.1 defaultLab env5 220 100000 "PASS_STRICT" defaultExtra 1 80 5000 [] 0
    [trial5a, trial5b] (by decide)

end Ouroboros
